import Mathlib

/-!
Verification of the thread-safe FIFO queue (package threadsafequeue,
src/queue.go). The Go struct `ThreadSafeQueue` holds a slice
`queue []interface{}` guarded by a mutex, plus a condition variable used by
`Dequeue` to block while the slice is empty. We embed the sequential
semantics of each method as a function of the slice contents: every method
body is a single critical section, so its effect is a function of the state
it observes under the lock. The element type is a parameter `α`, matching
the untyped `interface{}` slot (any Lean type, including sum types of
heterogeneous values, instantiates it).
-/

namespace ThreadSafeQueue

/-- State of the Go struct `ThreadSafeQueue`: the internal slice
`queue []interface{}`, oldest element first. The mutex and condition
variable are synchronization, not data; each method below is the function
its critical section computes on this state. -/
structure Queue (α : Type) where
  queue : List α
deriving Repr, DecidableEq

variable {α : Type}

/-- Go `NewThreadSafeQueue`: returns `&ThreadSafeQueue{}` with the condition
variable tied to the mutex; the slice field is the zero value, i.e. empty. -/
def NewThreadSafeQueue (α : Type) : Queue α := ⟨[]⟩

/-- Go `Enqueue`: under the lock, `q.queue = append(q.queue, item)`, then
`q.cond.Signal()`. Total function: the body has no error path. -/
def Enqueue (q : Queue α) (item : α) : Queue α :=
  ⟨q.queue ++ [item]⟩

/-- Go `Dequeue`: under the lock, loops `for len(q.queue) == 0 { q.cond.Wait() }`,
then takes `item := q.queue[0]`, sets `q.queue = q.queue[1:]` and returns
`(item, true)`. The loop exits only on a non-empty slice, so the sequential
semantics of a completed call is defined on non-empty states; on the empty
state the call blocks, which we render as `none`. -/
def Dequeue (q : Queue α) : Option (α × Bool × Queue α) :=
  match q.queue with
  | [] => none
  | item :: rest => some (item, true, ⟨rest⟩)

/-- Go `IsEmpty`: under the lock, returns `len(q.queue) == 0`. The method
body only reads the slice; we return the result together with the state the
method leaves behind. -/
def IsEmpty (q : Queue α) : Bool × Queue α :=
  (q.queue.length == 0, q)

/-- Go `Size`: under the lock, returns `len(q.queue)`. The method body only
reads the slice; we return the result together with the state the method
leaves behind. -/
def Size (q : Queue α) : Nat × Queue α :=
  (q.queue.length, q)

/-- Performs a sequence of `Enqueue` calls, left to right. -/
def enqueueAll (q : Queue α) (vs : List α) : Queue α :=
  vs.foldl Enqueue q

/-- Performs `n` consecutive completed `Dequeue` calls, collecting each
returned `(item, ok)` pair; `none` if some call blocks (empty queue). -/
def dequeueAll : Queue α → Nat → Option (List (α × Bool) × Queue α)
  | q, 0 => some ([], q)
  | q, n + 1 =>
    match Dequeue q with
    | none => none
    | some (x, b, q') =>
      match dequeueAll q' n with
      | none => none
      | some (xs, qf) => some ((x, b) :: xs, qf)

/-- A client operation on the queue: an `Enqueue` of a value or a `Dequeue`. -/
inductive Op (α : Type) where
  | enqueueOp (v : α)
  | dequeueOp
deriving Repr, DecidableEq

/-- Runs a sequence of operations with no operation in flight: each
operation completes before the next begins. `none` if some `Dequeue` finds
the queue empty and blocks (the sequence then never completes). -/
def runOps : Queue α → List (Op α) → Option (Queue α)
  | q, [] => some q
  | q, Op.enqueueOp v :: rest => runOps (Enqueue q v) rest
  | q, Op.dequeueOp :: rest =>
    match Dequeue q with
    | none => none
    | some (_, _, q') => runOps q' rest

/-- Number of enqueue operations in a sequence. -/
def countEnqueues : List (Op α) → Nat
  | [] => 0
  | Op.enqueueOp _ :: rest => countEnqueues rest + 1
  | Op.dequeueOp :: rest => countEnqueues rest

/-- Number of dequeue operations in a sequence. -/
def countDequeues : List (Op α) → Nat
  | [] => 0
  | Op.enqueueOp _ :: rest => countDequeues rest
  | Op.dequeueOp :: rest => countDequeues rest + 1

/-- Control point of a single `Dequeue` call inside its body:
`checking` is the loop head (about to evaluate `len(q.queue) == 0` holding
the lock), `waiting` is suspended inside `q.cond.Wait()` (lock released),
`finished item` is past the loop, having removed `item`. -/
inductive DequeueCtl (α : Type) where
  | checking
  | waiting
  | finished (item : α)
deriving Repr, DecidableEq

/-- Configuration of one `Dequeue` call: its control point, whether it
holds the mutex, and the current slice contents. -/
structure DequeueConfig (α : Type) where
  ctl : DequeueCtl α
  lockHeld : Bool
  queue : List α
deriving Repr, DecidableEq

/-- Small-step semantics of the `Dequeue` body against an environment of
other goroutines. `toWait`: the loop guard sees an empty slice and calls
`cond.Wait()`, which releases the lock. `envChange`: while the waiter is
suspended (lock free) other goroutines may mutate the slice. `wakeup`:
`cond.Wait()` returns, reacquiring the lock, and control returns to the
loop guard. `take`: the guard sees a non-empty slice, so the loop exits and
the head is removed. -/
inductive DequeueStep : DequeueConfig α → DequeueConfig α → Prop where
  | toWait :
      DequeueStep ⟨DequeueCtl.checking, true, []⟩ ⟨DequeueCtl.waiting, false, []⟩
  | envChange (q q' : List α) :
      DequeueStep ⟨DequeueCtl.waiting, false, q⟩ ⟨DequeueCtl.waiting, false, q'⟩
  | wakeup (q : List α) :
      DequeueStep ⟨DequeueCtl.waiting, false, q⟩ ⟨DequeueCtl.checking, true, q⟩
  | take (x : α) (rest : List α) :
      DequeueStep ⟨DequeueCtl.checking, true, x :: rest⟩
        ⟨DequeueCtl.finished x, true, rest⟩

/-- Wait-loop discipline of a single step of the `Dequeue` body: an empty
check suspends the caller and releases the lock without touching the queue;
a wakeup goes back to the check and never removes an element directly; and
reaching the removal requires the check to have seen a non-empty queue
under the lock. -/
def dequeueLoopOK (c c' : DequeueConfig α) : Prop :=
  (c.ctl = DequeueCtl.checking ∧ c.queue = [] →
    c'.ctl = DequeueCtl.waiting ∧ c'.lockHeld = false ∧ c'.queue = c.queue) ∧
  (c.ctl = DequeueCtl.waiting → ∀ x : α, c'.ctl ≠ DequeueCtl.finished x) ∧
  (∀ x : α, c'.ctl = DequeueCtl.finished x →
    c.ctl = DequeueCtl.checking ∧ c.lockHeld = true ∧
      ∃ rest : List α, c.queue = x :: rest)

/-- Monitor state seen by `Enqueue`: the slice plus the number of
goroutines suspended in `cond.Wait()`. -/
structure MonitorState (α : Type) where
  queue : List α
  waiters : Nat
deriving Repr, DecidableEq

/-- Semantics of `sync.Cond.Signal`: wakes one goroutine waiting on the
condition variable, if there is any. Returns (number woken, remaining
waiters). -/
def Signal (waiters : Nat) : Nat × Nat :=
  if waiters = 0 then (0, 0) else (1, waiters - 1)

/-- Go `Enqueue` at the monitor level: appends the item and calls
`q.cond.Signal()` exactly once. Returns the new monitor state and the
number of waiters woken by this call. -/
def EnqueueSignals (s : MonitorState α) (item : α) : MonitorState α × Nat :=
  (⟨s.queue ++ [item], (Signal s.waiters).2⟩, (Signal s.waiters).1)

theorem enqueueAll_queue (q : Queue α) (vs : List α) :
    (enqueueAll q vs).queue = q.queue ++ vs := by
  induction vs generalizing q with
  | nil => simp [enqueueAll]
  | cons v vs ih =>
    show (enqueueAll (Enqueue q v) vs).queue = _
    rw [ih]
    simp [Enqueue]

theorem dequeueAll_exact (vs : List α) :
    dequeueAll (⟨vs⟩ : Queue α) vs.length
      = some (vs.map (fun v => (v, true)), (⟨[]⟩ : Queue α)) := by
  induction vs with
  | nil => rfl
  | cons x rest ih =>
    show dequeueAll (⟨x :: rest⟩ : Queue α) (rest.length + 1) = _
    simp only [dequeueAll, Dequeue, ih, List.map]

theorem runOps_size_balance (ops : List (Op α)) :
    ∀ q0 q : Queue α, runOps q0 ops = some q →
      (Size q).1 + countDequeues ops = (Size q0).1 + countEnqueues ops := by
  induction ops with
  | nil =>
    intro q0 q h
    obtain rfl : q0 = q := by simpa [runOps] using h
    simp [countDequeues, countEnqueues]
  | cons op rest ih =>
    intro q0 q h
    cases op with
    | enqueueOp v =>
      have h' : runOps (Enqueue q0 v) rest = some q := h
      have := ih (Enqueue q0 v) q h'
      simp only [countDequeues, countEnqueues, Size, Enqueue] at *
      simp at this
      omega
    | dequeueOp =>
      cases hq : q0.queue with
      | nil =>
        exfalso
        have : runOps q0 (Op.dequeueOp :: rest) = none := by
          simp [runOps, Dequeue, hq]
        rw [this] at h
        exact Option.noConfusion h
      | cons x xs =>
        have h' : runOps (⟨xs⟩ : Queue α) rest = some q := by
          simpa [runOps, Dequeue, hq] using h
        have hsz := ih ⟨xs⟩ q h'
        simp only [countDequeues, countEnqueues, Size, hq, List.length_cons] at hsz ⊢
        omega

/-- Claim C1: for every sequence of N Enqueue calls with values v1..vN on a
fresh queue with no interleaved Dequeue, the next N Dequeue calls return
exactly v1..vN in that order, each with success indicator true, each value
identical to the one inserted. The element type is arbitrary, so
heterogeneous values (a sum type) are covered. -/
theorem fifo_order_preserved (α : Type) (vs : List α) :
    dequeueAll (enqueueAll (NewThreadSafeQueue α) vs) vs.length
      = some (vs.map (fun v => (v, true)), NewThreadSafeQueue α) := by
  have hq := enqueueAll_queue (NewThreadSafeQueue α) vs
  have h : enqueueAll (NewThreadSafeQueue α) vs = (⟨vs⟩ : Queue α) :=
    calc enqueueAll (NewThreadSafeQueue α) vs
        = ⟨(enqueueAll (NewThreadSafeQueue α) vs).queue⟩ := rfl
      _ = (⟨vs⟩ : Queue α) := by rw [hq]; simp [NewThreadSafeQueue]
  rw [h]
  exact dequeueAll_exact vs

/-- Claim C2: whenever Dequeue returns, its boolean result is true; no
completed Dequeue returns false, on any reachable state. -/
theorem dequeue_success_flag_true (q : Queue α) (x : α) (b : Bool)
    (q' : Queue α) (h : Dequeue q = some (x, b, q')) : b = true := by
  unfold Dequeue at h
  cases hq : q.queue with
  | nil => rw [hq] at h; exact Option.noConfusion h
  | cons y rest =>
    rw [hq] at h
    obtain ⟨-, rfl, -⟩ : y = x ∧ true = b ∧ (⟨rest⟩ : Queue α) = q' := by
      simpa using h
    rfl

/-- Witness for C2 at the concrete state [7]: Dequeue returns (7, true, []). -/
theorem dequeue_success_flag_true_witness : true = true :=
  dequeue_success_flag_true (⟨[7]⟩ : Queue Nat) 7 true ⟨[]⟩ rfl

/-- Claim C3: NewThreadSafeQueue returns a queue in the empty state with no
error: immediately after creation IsEmpty reports true and Size reports 0. -/
theorem new_queue_empty (α : Type) :
    (IsEmpty (NewThreadSafeQueue α)).1 = true ∧
      (Size (NewThreadSafeQueue α)).1 = 0 := by
  constructor <;> rfl

/-- Claim C4: for every queue state and every value, Enqueue succeeds (it is
a total function with no error outcome) and appends the value at the tail,
leaving all previously held elements unchanged and in their prior order. -/
theorem enqueue_appends_tail (q : Queue α) (item : α) :
    (Enqueue q item).queue = q.queue ++ [item] ∧
      (Enqueue q item).queue.take q.queue.length = q.queue := by
  refine ⟨rfl, ?_⟩
  simp [Enqueue]

/-- Claim C5: after any fully completed sequence of operations on a fresh
queue with no operation in flight, Size returns exactly the number of
completed Enqueue calls minus the number of completed Dequeue calls. -/
theorem size_eq_inserts_sub_removes (ops : List (Op α)) (q : Queue α)
    (h : runOps (NewThreadSafeQueue α) ops = some q) :
    ((Size q).1 : ℤ) = (countEnqueues ops : ℤ) - (countDequeues ops : ℤ) := by
  have hbal := runOps_size_balance ops (NewThreadSafeQueue α) q h
  have hz : (Size (NewThreadSafeQueue α)).1 = 0 := rfl
  rw [hz] at hbal
  omega

/-- Witness for C5: two enqueues then one dequeue leave a queue of size 1,
and 1 = 2 - 1. -/
theorem size_eq_inserts_sub_removes_witness :
    (((Size (⟨[7]⟩ : Queue Nat)).1 : ℤ)
      = (countEnqueues [Op.enqueueOp 5, Op.enqueueOp 7, Op.dequeueOp] : ℤ)
        - (countDequeues [Op.enqueueOp (5 : Nat), Op.enqueueOp 7, Op.dequeueOp] : ℤ)) :=
  size_eq_inserts_sub_removes
    [Op.enqueueOp 5, Op.enqueueOp 7, Op.dequeueOp] ⟨[7]⟩ rfl

/-- Claim C6: for every queue state, IsEmpty returns true if and only if
Size returns 0; IsEmpty returns false exactly when some inserted value has
not yet been removed. -/
theorem isEmpty_iff_size_zero (q : Queue α) :
    (IsEmpty q).1 = true ↔ (Size q).1 = 0 := by
  simp [IsEmpty, Size]

/-- Claim C7: a Dequeue call that holds the lock and finds the queue empty
suspends, releasing the lock while suspended and leaving the queue
untouched; a suspended call never removes an element directly on wakeup but
returns to the emptiness re-check; and an element is removed only from the
check point, under the lock, with the queue non-empty. -/
theorem dequeue_wait_loop (c c' : DequeueConfig α) (h : DequeueStep c c') :
    dequeueLoopOK c c' := by
  cases h with
  | toWait =>
    exact ⟨fun _ => ⟨rfl, rfl, rfl⟩,
      fun hw => by exact absurd hw (by simp),
      fun x hx => by exact absurd hx (by simp)⟩
  | envChange q q' =>
    exact ⟨fun ⟨hc, _⟩ => by exact absurd hc (by simp),
      fun _ x hx => by simp at hx,
      fun x hx => by simp at hx⟩
  | wakeup q =>
    exact ⟨fun ⟨hc, _⟩ => by exact absurd hc (by simp),
      fun _ x hx => by simp at hx,
      fun x hx => by simp at hx⟩
  | take x rest =>
    refine ⟨fun ⟨_, hq⟩ => by simp at hq, fun hw => by simp at hw,
      fun y hy => ?_⟩
    obtain rfl : x = y := by simpa [DequeueCtl.finished.injEq] using hy
    exact ⟨rfl, rfl, rest, rfl⟩

/-- Witness for C7 at a concrete step: the loop guard sees an empty queue
and moves to the waiting state with the lock released. -/
theorem dequeue_wait_loop_witness :
    dequeueLoopOK (⟨DequeueCtl.checking, true, []⟩ : DequeueConfig Nat)
      ⟨DequeueCtl.waiting, false, []⟩ :=
  dequeue_wait_loop _ _ DequeueStep.toWait

/-- Claim C8: each Enqueue call wakes at most one blocked Dequeue waiter; it
never wakes more than one waiter per insertion, and it still appends the
item at the tail. -/
theorem enqueue_wakes_at_most_one (s : MonitorState α) (item : α) :
    (EnqueueSignals s item).2 ≤ 1 ∧
      (EnqueueSignals s item).1.queue = s.queue ++ [item] := by
  refine ⟨?_, rfl⟩
  unfold EnqueueSignals Signal
  by_cases h : s.waiters = 0 <;> simp [h]

/-- Claim C9: on every non-empty queue, Dequeue removes exactly the head
element: it returns the head with indicator true, the resulting state is
precisely the tail of the prior sequence (remaining elements unchanged, in
order), and Size decreases by exactly one. -/
theorem dequeue_removes_exactly_head (q : Queue α) (x : α) (rest : List α)
    (h : q.queue = x :: rest) :
    Dequeue q = some (x, true, ⟨rest⟩) ∧
      (Size (⟨rest⟩ : Queue α)).1 + 1 = (Size q).1 := by
  constructor
  · unfold Dequeue
    rw [h]
  · simp [Size, h]

/-- Witness for C9 at the concrete state [3, 4, 5]: Dequeue returns 3 with
true, leaving [4, 5], and the size drops from 3 to 2. -/
theorem dequeue_removes_exactly_head_witness :
    Dequeue (⟨[3, 4, 5]⟩ : Queue Nat) = some (3, true, ⟨[4, 5]⟩) ∧
      (Size (⟨[4, 5]⟩ : Queue Nat)).1 + 1 = (Size (⟨[3, 4, 5]⟩ : Queue Nat)).1 :=
  dequeue_removes_exactly_head ⟨[3, 4, 5]⟩ 3 [4, 5] rfl

/-- Claim C10: IsEmpty and Size are pure observers: on every queue state,
each leaves the stored sequence of values completely unchanged. -/
theorem observers_leave_state_unchanged (q : Queue α) :
    (IsEmpty q).2 = q ∧ (Size q).2 = q :=
  ⟨rfl, rfl⟩

end ThreadSafeQueue
